import Mathlib

/- Shallow embedding of the OneDrive knowledge-integration sync program
   (main.go).  Go strings are Lean Strings; Go maps are association lists
   kept in insertion order; the local filesystem is a finite map from path
   strings to file contents plus a set of directory paths; the Microsoft
   Graph client is a pure oracle passed in as functions (remote tree and
   content fetch always succeed: the error-free executions are the ones the
   reconciliation claims quantify over, and the process-boundary error
   handling of main is modelled separately by mainFinish). -/

/- Association-list read modelling a Go map read m[k]. -/
def lookupA {α : Type} : List (String × α) → String → Option α
  | [], _ => none
  | (k, v) :: t, key => if k = key then some v else lookupA t key

/- Association-list insert modelling a Go map write m[k] = v. -/
def insertA {α : Type} : List (String × α) → String → α → List (String × α)
  | [], k, v => [(k, v)]
  | (k', v') :: t, k, v => if k' = k then (k, v) :: t else (k', v') :: insertA t k v

/- Key-set insert modelling a Go map[string]struct\x7b\x7d write. -/
def insertSet (l : List String) (x : String) : List String :=
  if x ∈ l then l else l ++ [x]

/- Character-list test that the first list starts with the second. -/
def startsWithL : List Char → List Char → Bool
  | _, [] => true
  | [], _ :: _ => false
  | c :: cs, d :: ds => c == d && startsWithL cs ds

/- strings.TrimPrefix(s, p). -/
def trimPrefixStr (s p : String) : String :=
  if startsWithL s.data p.data then String.mk (s.data.drop p.data.length) else s

/- strings.TrimRight(s, "/"). -/
def trimRightSlash (s : String) : String :=
  String.mk ((s.data.reverse.dropWhile (fun c => c == '/')).reverse)

/- strings.Split(s, "/")[0]: the characters before the first slash. -/
def firstSeg (s : String) : String :=
  String.mk (s.data.takeWhile (fun c => !(c == '/')))

/- strings.Cut(p, ":"): the part after the first colon, when one exists. -/
def cutAfterColon : List Char → Option (List Char)
  | [] => none
  | c :: cs => if c = ':' then some cs else cutAfterColon cs

/- strings.Split on a one-character separator: n separators give n+1 pieces. -/
def splitSep (sep : Char) : List Char → List (List Char)
  | [] => [[]]
  | c :: cs =>
    if c = sep then [] :: splitSep sep cs
    else
      match splitSep sep cs with
      | [] => [[c]]
      | h :: t => (c :: h) :: t

/- One step of path.Clean's lexical processing, with the pending output
   segments kept as a reversed stack: empty and dot segments are dropped,
   dotdot pops a poppable segment, is dropped at the root, and is kept when
   nothing can be popped in a relative path. -/
def cleanPush (rooted : Bool) (out : List (List Char)) (seg : List Char) : List (List Char) :=
  if seg = [] ∨ seg = [ '.' ] then out
  else if seg = [ '.', '.' ] then
    match out with
    | [] => if rooted then [] else [[ '.', '.' ]]
    | h :: t => if h = [ '.', '.' ] then [ '.', '.' ] :: h :: t else t
  else seg :: out

/- Character lists joined with a slash between consecutive elements. -/
def intercalateSlash : List (List Char) → List Char
  | [] => []
  | [x] => x
  | x :: y :: t => x ++ '/' :: intercalateSlash (y :: t)

/- path.Clean on the character list of a slash-separated path. -/
def goCleanData : List Char → List Char
  | [] => [ '.' ]
  | c :: cs =>
    let rooted := c == '/'
    let out := ((splitSep '/' (c :: cs)).foldl (cleanPush rooted) []).reverse
    let body := intercalateSlash out
    if rooted then '/' :: body
    else if body = [] then [ '.' ] else body

/- path.Clean. -/
def goClean (s : String) : String := String.mk (goCleanData s.data)

/- path.Join of two elements: empty elements contribute nothing, otherwise
   the elements are joined with a slash and the result is Cleaned. -/
def goPathJoin2 (a b : String) : String :=
  if a = "" ∧ b = "" then ""
  else if a = "" then goClean b
  else goClean (String.mk (a.data ++ '/' :: b.data))

/- path.Dir: Clean of the portion up to and including the last slash. -/
def goPathDir (s : String) : String :=
  goClean (String.mk ((s.data.reverse.dropWhile (fun c => !(c == '/'))).reverse))

/- FileDetails record persisted in Output.Files. -/
structure FileDetails where
  FilePath : String
  URL : String
  UpdatedAt : String
deriving DecidableEq

/- The fields of models.DriveItemable that the program reads. -/
structure DriveItem where
  id : String
  name : String
  parentPath : Option String
  lastModifiedAt : String
  webUrl : String
  driveId : String
deriving DecidableEq

/- One element of the items map built by sync: a leaf drive item together
   with the entry-point root computed on line 139. -/
structure Entry where
  item : DriveItem
  root : String
deriving DecidableEq

/- Local filesystem state: files as path-content pairs and a directory set. -/
structure FS where
  files : List (String × String)
  dirs : List String
deriving DecidableEq

/- os.Stat success on a file path. -/
def FS.statFile (fs : FS) (p : String) : Bool := (lookupA fs.files p).isSome

/- os.WriteFile: create or overwrite. -/
def FS.writeFile (fs : FS) (p c : String) : FS := { fs with files := insertA fs.files p c }

/- os.MkdirAll. -/
def FS.mkdirAll (fs : FS) (d : String) : FS := { fs with dirs := insertSet fs.dirs d }

/- Path q lies at or below path p. -/
def underPath (p q : String) : Bool := q == p || startsWithL q.data (p.data ++ [ '/' ])

/- os.RemoveAll: delete the tree rooted at p; absent paths are tolerated. -/
def FS.removeAll (fs : FS) (p : String) : FS :=
  { files := fs.files.filter (fun kv => !(underPath p kv.1))
    dirs := fs.dirs.filter (fun d => !(underPath p d)) }

/- getFullName from main.go: strings.Cut the parent path at the colon and
   path.Join the part after it with the item name; empty string otherwise. -/
def getFullName (it : DriveItem) : String :=
  match it.parentPath with
  | none => ""
  | some p =>
    match cutAfterColon p.data with
    | some after => goPathJoin2 (String.mk after) it.name
    | none => ""

/- Lines 200-202: path.Join(dataPath, strings.TrimPrefix(fullPath, root)). -/
def downloadPathFor (dataPath : String) (e : Entry) : String :=
  goPathJoin2 dataPath (trimPrefixStr (getFullName e.item) e.root)

/- Line 203: first segment of the relative path after trimming one leading
   path separator. -/
def topFolderFor (e : Entry) : String :=
  firstSeg (trimPrefixStr (trimPrefixStr (getFullName e.item) e.root) ("/"))

/- Lines 204-210: the detail value the download check reads; the stored
   record when the id is tracked, otherwise the freshly created record. -/
def detailFor (files : List (String × FileDetails)) (dataPath : String) (e : Entry) : FileDetails :=
  match lookupA files e.item.id with
  | some d => d
  | none =>
    { FilePath := downloadPathFor dataPath e
      URL := e.item.webUrl
      UpdatedAt := e.item.lastModifiedAt }

/- Mutable state threaded through one saveToMetadata call: filesystem, the
   Output.Files and Output.Folders maps, the status string, the folders seen
   this run, the ids downloaded this run and the persist count. -/
structure ApplyAcc where
  fs : FS
  outFiles : List (String × FileDetails)
  outFolders : List String
  status : String
  seen : List String
  downloads : List String
  persists : Nat
deriving DecidableEq

/- One iteration of the apply loop, lines 199-238 of main.go. -/
def processItem (dataPath : String) (content : String → String) (nItems : Nat)
    (acc : ApplyAcc) (e : Entry) : ApplyAcc :=
  let downloadPath := downloadPathFor dataPath e
  let detail := detailFor acc.outFiles dataPath e
  let outFiles1 :=
    match lookupA acc.outFiles e.item.id with
    | some _ => acc.outFiles
    | none => insertA acc.outFiles e.item.id detail
  let fs1 :=
    if goPathDir downloadPath ∈ acc.fs.dirs then acc.fs
    else FS.mkdirAll acc.fs (goPathDir downloadPath)
  { fs :=
      if FS.statFile fs1 downloadPath = false ∨ detail.UpdatedAt ≠ e.item.lastModifiedAt
      then FS.writeFile fs1 downloadPath (content e.item.id) else fs1
    outFiles := outFiles1
    outFolders := insertSet acc.outFolders (topFolderFor e)
    status := "Synced " ++ toString outFiles1.length ++ " files out of " ++ toString nItems
    seen := insertSet acc.seen (topFolderFor e)
    downloads :=
      if FS.statFile fs1 downloadPath = false ∨ detail.UpdatedAt ≠ e.item.lastModifiedAt
      then acc.downloads ++ [e.item.id] else acc.downloads
    persists := acc.persists + 1 }

/- Prune-files stage, lines 239-254: records whose id is not in items lose
   their record, and os.RemoveAll runs on path.Join(dataPath, FilePath) when
   FilePath is nonempty. -/
def pruneFiles (dataPath : String) (ids : List String) :
    FS → List (String × FileDetails) → FS × List (String × FileDetails)
  | fs, [] => (fs, [])
  | fs, (k, d) :: t =>
    if k ∈ ids then
      ((pruneFiles dataPath ids fs t).1, (k, d) :: (pruneFiles dataPath ids fs t).2)
    else
      pruneFiles dataPath ids
        (if d.FilePath ≠ "" then FS.removeAll fs (goPathJoin2 dataPath d.FilePath) else fs) t

/- Prune-folders stage, lines 256-264: tracked folders not seen this run are
   removed with os.RemoveAll(strings.TrimRight(folder, "/")) and dropped. -/
def pruneFolders (seen : List String) : FS → List String → FS × List String
  | fs, [] => (fs, [])
  | fs, f :: t =>
    if f ∈ seen then
      ((pruneFolders seen fs t).1, f :: (pruneFolders seen fs t).2)
    else
      pruneFolders seen (FS.removeAll fs (trimRightSlash f)) t

/- The observable result of one saveToMetadata call. -/
structure RunResult where
  fs : FS
  Files : List (String × FileDetails)
  Folders : List String
  Status : String
  downloads : List String
  persists : Nat
deriving DecidableEq

/- saveToMetadata, lines 194-267: apply every collected item, then prune
   files, then prune folders. -/
def saveToMetadata (dataPath : String) (content : String → String) (items : List Entry)
    (fs0 : FS) (files0 : List (String × FileDetails)) (folders0 : List String)
    (status0 : String) : RunResult :=
  let acc0 : ApplyAcc :=
    { fs := fs0, outFiles := files0, outFolders := folders0, status := status0
      seen := [], downloads := [], persists := 0 }
  let acc := items.foldl (processItem dataPath content items.length) acc0
  let ids := items.map (fun e => e.item.id)
  let pf := pruneFiles dataPath ids acc.fs acc.outFiles
  let pd := pruneFolders acc.seen pf.1 acc.outFolders
  { fs := pd.1, Files := pf.2, Folders := pd.2, Status := acc.status
    downloads := acc.downloads, persists := acc.persists }

/- A remote tree node as the Graph client presents it: a file leaf or a
   folder with children. -/
inductive RNode where
  | file (it : DriveItem)
  | folder (it : DriveItem) (children : List RNode)

mutual
/- getChildrenFileForItem, lines 170-192: the file leaves of a subtree. -/
def flatten : RNode → List DriveItem
  | .file it => [it]
  | .folder _ cs => flattenList cs

def flattenList : List RNode → List DriveItem
  | [] => []
  | n :: t => flatten n ++ flattenList t
end

/- The drive item carried by a node. -/
def rnodeItem : RNode → DriveItem
  | .file it => it
  | .folder it _ => it

/- Go-map insertion of an entry keyed by item id, last write wins. -/
def insertEntry : List Entry → Entry → List Entry
  | [], e => [e]
  | e' :: t, e => if e'.item.id = e.item.id then e :: t else e' :: insertEntry t e

/- Collect stage of sync, lines 128-154: resolve every shared link, compute
   its root as path.Dir of the share item's full name, flatten, and union
   all leaves into one id-keyed working set. -/
def collectEntries (resolve : String → RNode) (links : List String) : List Entry :=
  links.foldl
    (fun acc link =>
      let node := resolve link
      let root := goPathDir (getFullName (rnodeItem node))
      (flatten node).foldl (fun acc2 it => insertEntry acc2 { item := it, root := root }) acc)
    []

/- sync, lines 123-160: collect then saveToMetadata. -/
def sync (dataPath : String) (resolve : String → RNode) (content : String → String)
    (fs0 : FS) (files0 : List (String × FileDetails)) (folders0 : List String)
    (status0 : String) (links : List String) : RunResult :=
  saveToMetadata dataPath content (collectEntries resolve links) fs0 files0 folders0 status0

/- The Output section of the metadata document as main manipulates it. -/
structure MetaOutput where
  Status : String
  Error : String
  Files : List (String × FileDetails)
  Folders : List String
deriving DecidableEq

/- The process outcome of main: the in-memory Output at exit, the Output
   snapshots handed to writeMetadata, and the exit code. -/
structure MainExit where
  output : MetaOutput
  persisted : List MetaOutput
  exitCode : Nat
deriving DecidableEq

/- Lines 107-121 of main.go: on a sync error the error text is recorded in
   Output.Error, a persist is attempted and the process exits 1; on success
   Status becomes Done, Error is cleared, the document is persisted, and the
   process exits 0 unless that final persist itself fails. -/
def mainFinish (out : MetaOutput) (syncErr : Option String)
    (persistFails : MetaOutput → Bool) : MainExit :=
  match syncErr with
  | some e =>
    { output := { out with Error := e }
      persisted := [{ out with Error := e }]
      exitCode := 1 }
  | none =>
    { output := { out with Status := "Done", Error := "" }
      persisted := [{ out with Status := "Done", Error := "" }]
      exitCode := if persistFails { out with Status := "Done", Error := "" } then 1 else 0 }

/- The Output section as json.Unmarshal leaves it: a Go map field absent or
   null from the document stays a nil map, modelled as none. -/
structure ParsedOutput where
  Status : String
  Error : String
  Files : Option (List (String × FileDetails))
  Folders : Option (List String)
deriving DecidableEq

/- Lines 95-105 of main.go: a nil Output.Files map and a nil Output.Folders
   map are each replaced by a fresh empty map before reconciliation. -/
def normalizeOutput (p : ParsedOutput) : ParsedOutput :=
  let p1 := if p.Files = none then { p with Files := some [] } else p
  if p1.Folders = none then { p1 with Folders := some [] } else p1

/- The standard base64 alphabet. -/
def b64Alphabet : List Char :=
  ("ABCDEFGHIJKLMNOPQRSTUVWXYZabcdefghijklmnopqrstuvwxyz0123456789+/").data

/- The alphabet character for a 6-bit group. -/
def b64Char (n : Nat) : Char := b64Alphabet.getD (n % 64) 'A'

/- base64.StdEncoding.EncodeToString: three input bytes become four alphabet
   characters; a final one- or two-byte group is padded with equals signs. -/
def base64Chunks : List Nat → List Char
  | [] => []
  | [b0] => [b64Char (b0 / 4), b64Char (b0 % 4 * 16), '=', '=']
  | [b0, b1] => [b64Char (b0 / 4), b64Char (b0 % 4 * 16 + b1 / 16), b64Char (b1 % 16 * 4), '=']
  | b0 :: b1 :: b2 :: rest =>
    b64Char (b0 / 4) :: b64Char (b0 % 4 * 16 + b1 / 16) ::
      b64Char (b1 % 16 * 4 + b2 / 64) :: b64Char (b2 % 64) :: base64Chunks rest

/- strings.TrimRight(s, "=") on a character list. -/
def trimPad (l : List Char) : List Char :=
  (l.reverse.dropWhile (fun c => c == '=')).reverse

/- The character substitutions applied last by encodeURL. -/
def replSlashPlus (c : Char) : Char :=
  if c = '/' then '_' else if c = '+' then '-' else c

/- encodeURL, lines 280-287 of main.go, on the UTF-8 bytes of the input:
   standard base64, trailing padding trimmed, a u-bang marker prefixed, and
   slash and plus replaced by underscore and hyphen. -/
def encodeURL (bytes : List Nat) : List Char :=
  ('u' :: '!' :: trimPad (base64Chunks bytes)).map replSlashPlus

/- The UTF-8 bytes of a string, as byte values. -/
def strBytes (s : String) : List Nat := s.toUTF8.toList.map (fun b => b.toNat)

/- encodeURL as the string-valued function of the source. -/
def encodeURLStr (s : String) : String := String.mk (encodeURL (strBytes s))

/- Concrete stale-stamp scenario for the selective re-download claim: the
   entry point resolves to folder B under /A holding one file f1; f1 is
   tracked with stamp T1, exists on disk, and its remote stamp is now T2. -/
def c1Share : DriveItem :=
  { id := "share", name := "B", parentPath := some ("drv:/A")
    lastModifiedAt := "T0", webUrl := "w0", driveId := "d" }

def c1Leaf : DriveItem :=
  { id := "f1", name := "report.pdf", parentPath := some ("drv:/A/B")
    lastModifiedAt := "T2", webUrl := "w1", driveId := "d" }

def c1Resolve : String → RNode := fun _ => RNode.folder c1Share [RNode.file c1Leaf]

def c1Run : RunResult :=
  sync "/out" c1Resolve (fun _ => "new")
    { files := [("/out/B/report.pdf", "old")], dirs := ["/out/B"] }
    [("f1", { FilePath := "/out/B/report.pdf", URL := "w1", UpdatedAt := "T1" })]
    ["B"] "Done" ["L"]

/- The same stale-stamp scenario run twice in a row against the unchanged
   remote tree, for the idempotence claim. -/
def c2Share : DriveItem :=
  { id := "share", name := "B", parentPath := some ("drv:/A")
    lastModifiedAt := "T0", webUrl := "w0", driveId := "d" }

def c2Leaf : DriveItem :=
  { id := "f1", name := "report.pdf", parentPath := some ("drv:/A/B")
    lastModifiedAt := "T2", webUrl := "w1", driveId := "d" }

def c2Resolve : String → RNode := fun _ => RNode.folder c2Share [RNode.file c2Leaf]

def c2Run1 : RunResult :=
  sync "/out" c2Resolve (fun _ => "new")
    { files := [("/out/B/report.pdf", "old")], dirs := ["/out/B"] }
    [("f1", { FilePath := "/out/B/report.pdf", URL := "w1", UpdatedAt := "T1" })]
    ["B"] "Done" ["L"]

def c2Run2 : RunResult :=
  sync "/out" c2Resolve (fun _ => "new") c2Run1.fs c2Run1.Files c2Run1.Folders c2Run1.Status ["L"]

/- Concrete prune-files scenario: the tracked id gone no longer appears in
   the collected items; its record points at the on-disk file /out/B/c.txt. -/
def c3Run : RunResult :=
  saveToMetadata "/out" (fun _ => "x") []
    { files := [("/out/B/c.txt", "data")], dirs := ["/out/B"] }
    [("gone", { FilePath := "/out/B/c.txt", URL := "u", UpdatedAt := "T" })]
    [] "s"

/- Concrete prune-folders scenario: top-level folder B is tracked, its
   materialization lives under the output directory /out, and no item of
   this run touches it. -/
def c4Run : RunResult :=
  saveToMetadata "/out" (fun _ => "x") []
    { files := [("/out/B/c.txt", "data")], dirs := ["/out/B"] }
    [] ["B"] "s"

/- Concrete apply-stage state for the download-condition witness: f1 is
   tracked at stamp T1 and present on disk while the remote stamp is T2. -/
def c5Entry : Entry :=
  { item :=
      { id := "f1", name := "report.pdf", parentPath := some ("drv:/A/B")
        lastModifiedAt := "T2", webUrl := "w1", driveId := "d" }
    root := "/A" }

def c5Acc : ApplyAcc :=
  { fs := { files := [("/out/B/report.pdf", "old")], dirs := ["/out/B"] }
    outFiles := [("f1", { FilePath := "/out/B/report.pdf", URL := "w1", UpdatedAt := "T1" })]
    outFolders := ["B"], status := "s", seen := [], downloads := [], persists := 0 }

/- Concrete path-derivation scenario: the entry point has full remote path
   /A/B and the descendant leaf has full remote path /A/B/C/d.txt. -/
def c6Entry : DriveItem :=
  { id := "e", name := "B", parentPath := some ("drv:/A")
    lastModifiedAt := "T", webUrl := "w", driveId := "d" }

def c6Leaf : DriveItem :=
  { id := "l", name := "d.txt", parentPath := some ("drv:/A/B/C")
    lastModifiedAt := "T", webUrl := "w", driveId := "d" }

/- Concrete frame-property scenario: f1 is tracked and collected again with
   a changed remote stamp, so its content is re-downloaded. -/
def c9Entry : Entry :=
  { item :=
      { id := "f1", name := "report.pdf", parentPath := some ("drv:/A/B")
        lastModifiedAt := "T2", webUrl := "w1", driveId := "d" }
    root := "/A" }

def c9Detail : FileDetails :=
  { FilePath := "/out/B/report.pdf", URL := "w1", UpdatedAt := "T1" }

/- Helper: every alphabet character differs from the padding character. -/
theorem b64Char_ne_pad (n : Nat) : b64Char n ≠ '=' := by
  have h : ∀ m, m < 64 → b64Alphabet.getD m 'A' ≠ '=' := by decide
  exact h (n % 64) (Nat.mod_lt n (by decide))

/- Helper: dropWhile over an append whose first part satisfies the test. -/
theorem dropWhile_append_all {α : Type} (p : α → Bool) (a b : List α)
    (h : ∀ c ∈ a, p c = true) : (a ++ b).dropWhile p = b.dropWhile p := by
  induction a with
  | nil => rfl
  | cons x xs ih =>
    have hx := h x (List.mem_cons_self x xs)
    simp [List.dropWhile_cons, hx, ih (fun c hc => h c (List.mem_cons_of_mem x hc))]

/- Helper: trimming all-padding tails off a padding-free core recovers it. -/
theorem trimPad_append (core pad : List Char)
    (h1 : ∀ c ∈ core, c ≠ '=') (h2 : ∀ c ∈ pad, c = '=') :
    trimPad (core ++ pad) = core := by
  unfold trimPad
  rw [List.reverse_append]
  rw [dropWhile_append_all _ _ _
    (by intro c hc; have := h2 c (List.mem_reverse.mp hc); simp [this])]
  cases hcore : core.reverse with
  | nil =>
    have hc0 : core = [] := by
      have := congrArg List.reverse hcore
      simpa using this
    simp [hc0]
  | cons x xs =>
    have hx : x ∈ core := by
      have : x ∈ core.reverse := by rw [hcore]; exact List.mem_cons_self x xs
      exact List.mem_reverse.mp this
    have hxne : (x == '=') = false := by
      simpa using h1 x hx
    have hrev : (x :: xs).reverse = core := by rw [← hcore, List.reverse_reverse]
    rw [List.dropWhile_cons, hxne]
    simpa using hrev

/- Helper: the base64 output splits into a padding-free core followed by an
   all-padding tail. -/
theorem base64Chunks_shape :
    ∀ (n : Nat) (u : List Nat), u.length ≤ n →
      ∃ core pad, base64Chunks u = core ++ pad ∧
        (∀ c ∈ core, c ≠ '=') ∧ (∀ c ∈ pad, c = '=') := by
  intro n
  induction n with
  | zero =>
    intro u h
    have hu : u = [] := List.length_eq_zero.mp (Nat.le_zero.mp h)
    exact ⟨[], [], by simp [hu, base64Chunks], by simp, by simp⟩
  | succ n ih =>
    intro u h
    rcases u with _ | ⟨b0, _ | ⟨b1, _ | ⟨b2, rest⟩⟩⟩
    · exact ⟨[], [], by simp [base64Chunks], by simp, by simp⟩
    · refine ⟨[b64Char (b0 / 4), b64Char (b0 % 4 * 16)], ['=', '='], rfl, ?_, ?_⟩
      · intro c hc
        simp at hc
        rcases hc with rfl | rfl <;> exact b64Char_ne_pad _
      · intro c hc
        simp at hc
        simp [hc]
    · refine ⟨[b64Char (b0 / 4), b64Char (b0 % 4 * 16 + b1 / 16), b64Char (b1 % 16 * 4)],
        ['='], rfl, ?_, ?_⟩
      · intro c hc
        simp at hc
        rcases hc with rfl | rfl | rfl <;> exact b64Char_ne_pad _
      · intro c hc
        simp at hc
        simp [hc]
    · have hr : rest.length ≤ n := by
        simp only [List.length_cons] at h
        omega
      obtain ⟨core, pad, he, h1, h2⟩ := ih rest hr
      refine ⟨b64Char (b0 / 4) :: b64Char (b0 % 4 * 16 + b1 / 16) ::
          b64Char (b1 % 16 * 4 + b2 / 64) :: b64Char (b2 % 64) :: core, pad, ?_, ?_, h2⟩
      · simp [base64Chunks, he]
      · intro c hc
        simp at hc
        rcases hc with rfl | rfl | rfl | rfl | hc
        · exact b64Char_ne_pad _
        · exact b64Char_ne_pad _
        · exact b64Char_ne_pad _
        · exact b64Char_ne_pad _
        · exact h1 c hc

/- Helper: the final substitution never produces a slash. -/
theorem replSlashPlus_ne_slash (c : Char) : replSlashPlus c ≠ '/' := by
  by_cases h1 : c = '/'
  · simp only [replSlashPlus, h1, if_pos rfl]
    decide
  · by_cases h2 : c = '+'
    · simp only [replSlashPlus, if_neg h1, h2, if_pos rfl]
      decide
    · simpa only [replSlashPlus, if_neg h1, if_neg h2] using h1

/- Helper: the final substitution never produces a plus. -/
theorem replSlashPlus_ne_plus (c : Char) : replSlashPlus c ≠ '+' := by
  by_cases h1 : c = '/'
  · simp only [replSlashPlus, h1, if_pos rfl]
    decide
  · by_cases h2 : c = '+'
    · simp only [replSlashPlus, if_neg h1, h2, if_pos rfl]
      decide
    · simpa only [replSlashPlus, if_neg h1, if_neg h2] using h2

/- Helper: the final substitution produces padding only from padding. -/
theorem replSlashPlus_eq_pad {c : Char} (h : replSlashPlus c = '=') : c = '=' := by
  by_cases h1 : c = '/'
  · rw [replSlashPlus, if_pos h1] at h
    exact absurd h (by decide)
  · by_cases h2 : c = '+'
    · rw [replSlashPlus, if_neg h1, if_pos h2] at h
      exact absurd h (by decide)
    · rwa [replSlashPlus, if_neg h1, if_neg h2] at h

/-- C1: counter-evidence against the claim that after a reconciliation run
that re-fetches a tracked file whose remote stamp changed, the stored
updatedAt equals the new remote stamp.  In the concrete stale-stamp run the
remote stamp is T2, the content is re-downloaded and overwritten, yet
Output.Files of id f1 still carries the old stamp T1: saveToMetadata only
assigns record fields when the id is absent from Output.Files. -/
theorem c1_updatedAt_not_refreshed :
    c1Leaf.lastModifiedAt = "T2" ∧
    c1Run.downloads = ["f1"] ∧
    lookupA c1Run.fs.files ("/out/B/report.pdf") = some ("new") ∧
    lookupA c1Run.Files ("f1") =
      some { FilePath := "/out/B/report.pdf", URL := "w1", UpdatedAt := "T1" } ∧
    ("T1" : String) ≠ "T2" := by decide

/-- C2: counter-evidence against the claim that a second reconciliation run
against an unchanged remote performs zero content downloads from every
reachable starting state.  From the reachable state where f1 was recorded at
stamp T1 before the remote stamp became T2, both the first and the second of
two back-to-back runs against the unchanged remote download f1 again, because
the stored stamp is never refreshed; the Output of the two runs does
coincide. -/
theorem c2_second_run_downloads_again :
    c2Run1.downloads = ["f1"] ∧
    c2Run2.downloads = ["f1"] ∧
    c2Run2.downloads ≠ [] ∧
    c2Run2.Files = c2Run1.Files ∧
    c2Run2.Folders = c2Run1.Folders ∧
    c2Run2.fs = c2Run1.fs := by decide

/-- C3: counter-evidence against the claim that pruning deletes the local
file at a stale record's destination file path.  The record of id gone is
removed from Output.Files, but the on-disk file at its FilePath survives:
the code re-joins the already-joined FilePath with the output directory and
removes the wrong path /out/out/B/c.txt. -/
theorem c3_prune_leaves_file_on_disk :
    lookupA c3Run.Files ("gone") = none ∧
    lookupA c3Run.fs.files ("/out/B/c.txt") = some ("data") ∧
    goPathJoin2 ("/out") ("/out/B/c.txt") = "/out/out/B/c.txt" := by decide

/-- C4: counter-evidence against the claim that an unseen tracked top-level
folder is removed from local disk under the output directory.  The folder
name B disappears from Output.Folders, but its materialization under /out is
untouched: the code calls RemoveAll on the bare name B without joining the
output directory. -/
theorem c4_prune_folder_misses_output_dir :
    c4Run.Folders = [] ∧
    lookupA c4Run.fs.files ("/out/B/c.txt") = some ("data") ∧
    ("/out/B") ∈ c4Run.fs.dirs := by decide

/-- C7: for every input byte sequence, encodeURL starts with the two-character
marker u-bang and its output contains no slash, no plus and no equals
character - in particular no trailing padding; the same holds at the spec's
example input, the UTF-8 bytes of the example URL. -/
theorem c7_encodeURL_props :
    (∀ u : List Nat,
      (encodeURL u).take 2 = ['u', '!'] ∧
      '/' ∉ encodeURL u ∧ '+' ∉ encodeURL u ∧ '=' ∉ encodeURL u) ∧
    ((encodeURLStr ("https://example/a b")).data.take 2 = ['u', '!'] ∧
      '/' ∉ (encodeURLStr ("https://example/a b")).data ∧
      '+' ∉ (encodeURLStr ("https://example/a b")).data ∧
      '=' ∉ (encodeURLStr ("https://example/a b")).data) := by
  have main : ∀ u : List Nat,
      (encodeURL u).take 2 = ['u', '!'] ∧
      '/' ∉ encodeURL u ∧ '+' ∉ encodeURL u ∧ '=' ∉ encodeURL u := by
    intro u
    obtain ⟨core, pad, he, h1, h2⟩ := base64Chunks_shape u.length u (Nat.le_refl _)
    have hE : encodeURL u = 'u' :: '!' :: core.map replSlashPlus := by
      unfold encodeURL
      rw [he, trimPad_append core pad h1 h2]
      rfl
    refine ⟨?_, ?_, ?_, ?_⟩
    · rw [hE]
      rfl
    · rw [hE]
      simp only [List.mem_cons, List.mem_map]
      rintro (h | h | ⟨x, hx, hxe⟩)
      · exact absurd h (by decide)
      · exact absurd h (by decide)
      · exact replSlashPlus_ne_slash x hxe
    · rw [hE]
      simp only [List.mem_cons, List.mem_map]
      rintro (h | h | ⟨x, hx, hxe⟩)
      · exact absurd h (by decide)
      · exact absurd h (by decide)
      · exact replSlashPlus_ne_plus x hxe
    · rw [hE]
      simp only [List.mem_cons, List.mem_map]
      rintro (h | h | ⟨x, hx, hxe⟩)
      · exact absurd h (by decide)
      · exact absurd h (by decide)
      · exact absurd (replSlashPlus_eq_pad hxe) (h1 x hx)
  exact ⟨main, (main _).1, (main _).2.1, (main _).2.2.1, (main _).2.2.2⟩

/-- C8: failure and success handling at the process boundary.  When sync
fails, the failing error text is written into Output.Error, that document is
persisted and the exit code is nonzero; when sync succeeds and the final
persist succeeds, Status is Done, Error is empty, the document is persisted
and the exit code is zero; and the exit code is zero exactly when sync and
the final persist both succeeded, so failure and success are never
conflated. -/
theorem c8_exit_behavior (out : MetaOutput) (syncErr : Option String)
    (pf : MetaOutput → Bool) :
    (∀ e, syncErr = some e →
      (mainFinish out syncErr pf).output.Error = e ∧
      (mainFinish out syncErr pf).output ∈ (mainFinish out syncErr pf).persisted ∧
      (mainFinish out syncErr pf).exitCode ≠ 0) ∧
    (syncErr = none → pf { out with Status := "Done", Error := "" } = false →
      (mainFinish out syncErr pf).output.Status = "Done" ∧
      (mainFinish out syncErr pf).output.Error = "" ∧
      (mainFinish out syncErr pf).output ∈ (mainFinish out syncErr pf).persisted ∧
      (mainFinish out syncErr pf).exitCode = 0) ∧
    ((mainFinish out syncErr pf).exitCode = 0 ↔
      syncErr = none ∧ pf { out with Status := "Done", Error := "" } = false) := by
  cases syncErr with
  | some e0 =>
    refine ⟨?_, ?_, ?_⟩
    · intro e he
      cases he
      exact ⟨rfl, List.mem_singleton.mpr rfl, by simp [mainFinish]⟩
    · intro h
      cases h
    · simp [mainFinish]
  | none =>
    cases hp : pf { out with Status := "Done", Error := "" } with
    | false =>
      refine ⟨?_, ?_, ?_⟩
      · intro e he
        cases he
      · intro _ _
        exact ⟨rfl, rfl, List.mem_singleton.mpr rfl, by simp [mainFinish, hp]⟩
      · simp [mainFinish, hp]
    | true =>
      refine ⟨?_, ?_, ?_⟩
      · intro e he
        cases he
      · intro _ hfalse
        cases hfalse
      · simp [mainFinish, hp]

/-- C8 witness: the theorem applied at a concrete Output, a concrete sync
error and a concrete successful-persist oracle. -/
theorem c8_exit_behavior_witness :
    (mainFinish { Status := "s", Error := "", Files := [], Folders := [] }
      (some ("boom")) (fun _ => false)).output.Error = "boom" ∧
    (mainFinish { Status := "s", Error := "", Files := [], Folders := [] }
      none (fun _ => false)).exitCode = 0 := by
  constructor
  · exact ((c8_exit_behavior _ _ _).1 ("boom") rfl).1
  · exact ((c8_exit_behavior _ _ _).2.1 rfl rfl).2.2.2

/-- C10: main replaces a nil Output.Files map and a nil Output.Folders map
each by a fresh empty map before reconciliation, and leaves maps loaded from
the document untouched, so every later read or insertion works on a non-nil
map. -/
theorem c10_nil_maps_initialized (p : ParsedOutput) :
    (normalizeOutput p).Files ≠ none ∧
    (normalizeOutput p).Folders ≠ none ∧
    (∀ m, p.Files = some m → (normalizeOutput p).Files = some m) ∧
    (∀ m, p.Folders = some m → (normalizeOutput p).Folders = some m) ∧
    (p.Files = none → (normalizeOutput p).Files = some []) ∧
    (p.Folders = none → (normalizeOutput p).Folders = some []) := by
  cases hf : p.Files <;> cases hd : p.Folders <;>
    simp [normalizeOutput, hf, hd]

/-- C10 witness: the theorem applied at the document whose output section has
both maps nil. -/
theorem c10_nil_maps_initialized_witness :
    (normalizeOutput { Status := "s", Error := "", Files := none, Folders := none }).Files
      = some [] ∧
    (normalizeOutput { Status := "s", Error := "", Files := none, Folders := none }).Folders
      = some [] := by
  constructor
  · exact (c10_nil_maps_initialized _).2.2.2.2.1 rfl
  · exact (c10_nil_maps_initialized _).2.2.2.2.2 rfl

/- Helper: reading an association list through an insert. -/
theorem lookupA_insertA {α : Type} (m : List (String × α)) (k key : String) (v : α) :
    lookupA (insertA m k v) key = if k = key then some v else lookupA m key := by
  induction m with
  | nil => simp [insertA, lookupA]
  | cons hd t ih =>
    obtain ⟨k0, v0⟩ := hd
    by_cases h0 : k0 = k
    · subst h0
      by_cases h1 : k0 = key <;> simp [insertA, lookupA, h1]
    · by_cases h1 : k0 = key
      · subst h1
        have h2 : ¬(k = k0) := fun h => h0 h.symm
        simp [insertA, lookupA, h0, h2]
      · simp [insertA, lookupA, h0, h1, ih]

/- Helper: the conditional MkdirAll before the download check never changes
   which files exist. -/
theorem statFile_after_mkdir (acc : ApplyAcc) (dpath p : String) :
    FS.statFile (if goPathDir dpath ∈ acc.fs.dirs then acc.fs
      else FS.mkdirAll acc.fs (goPathDir dpath)) p = FS.statFile acc.fs p := by
  by_cases h : goPathDir dpath ∈ acc.fs.dirs <;> simp [h, FS.mkdirAll, FS.statFile]

/- Helper: one apply iteration never rebinds an id that is already tracked. -/
theorem processItem_keeps_record (dataPath : String) (content : String → String) (n : Nat)
    (acc : ApplyAcc) (e : Entry) (k : String) (d : FileDetails)
    (h : lookupA acc.outFiles k = some d) :
    lookupA (processItem dataPath content n acc e).outFiles k = some d := by
  cases hf : lookupA acc.outFiles e.item.id with
  | some d0 => simpa [processItem, hf] using h
  | none =>
    have hne : ¬(e.item.id = k) := by
      intro he
      rw [he, h] at hf
      cases hf
    simp [processItem, hf, lookupA_insertA, hne, h]

/- Helper: the whole apply loop never rebinds an id that is already tracked. -/
theorem foldl_processItem_keeps (dataPath : String) (content : String → String) (n : Nat)
    (items : List Entry) :
    ∀ (acc : ApplyAcc) (k : String) (d : FileDetails),
      lookupA acc.outFiles k = some d →
      lookupA (items.foldl (processItem dataPath content n) acc).outFiles k = some d := by
  induction items with
  | nil =>
    intro acc k d h
    simpa using h
  | cons e t ih =>
    intro acc k d h
    exact ih _ k d (processItem_keeps_record dataPath content n acc e k d h)

/- Helper: the prune-files stage keeps every record whose id is in items,
   with its value unchanged. -/
theorem pruneFiles_keeps (dataPath : String) (ids : List String) :
    ∀ (m : List (String × FileDetails)) (fs : FS) (k : String) (d : FileDetails),
      k ∈ ids → lookupA m k = some d →
      lookupA (pruneFiles dataPath ids fs m).2 k = some d := by
  intro m
  induction m with
  | nil =>
    intro fs k d _ h
    cases h
  | cons hd t ih =>
    obtain ⟨k0, d0⟩ := hd
    intro fs k d hk h
    by_cases h0 : k0 ∈ ids
    · by_cases h1 : k0 = k
      · subst h1
        rw [lookupA, if_pos rfl] at h
        simp [pruneFiles, h0, lookupA, h]
      · rw [lookupA, if_neg h1] at h
        simp [pruneFiles, h0, lookupA, h1]
        exact ih fs k d hk h
    · have h1 : ¬(k0 = k) := fun he => h0 (he ▸ hk)
      rw [lookupA, if_neg h1] at h
      simp [pruneFiles, h0]
      exact ih _ k d hk h

/-- C9: frame property of the apply stage.  A record already present in
Output.Files at the start of the run and whose id is collected again keeps
all its fields (FilePath, URL, UpdatedAt) through the whole run - even when
the item's content is re-downloaded - since field values are assigned only
when a previously unseen id is first recorded. -/
theorem c9_existing_record_frame (dataPath : String) (content : String → String)
    (items : List Entry) (fs0 : FS) (files0 : List (String × FileDetails))
    (folders0 : List String) (status0 : String) (k : String) (d : FileDetails)
    (h1 : lookupA files0 k = some d)
    (h2 : k ∈ items.map (fun e => e.item.id)) :
    lookupA (saveToMetadata dataPath content items fs0 files0 folders0 status0).Files k
      = some d := by
  have hA := foldl_processItem_keeps dataPath content items.length items
    { fs := fs0, outFiles := files0, outFolders := folders0, status := status0
      seen := [], downloads := [], persists := 0 } k d h1
  simpa [saveToMetadata] using
    pruneFiles_keeps dataPath (items.map (fun e => e.item.id)) _ _ k d h2 hA

/-- C9 witness: the theorem applied at the concrete stale-stamp state, where
the run re-downloads f1 yet its record survives unchanged. -/
theorem c9_existing_record_frame_witness :
    lookupA (saveToMetadata ("/out") (fun _ => "new") [c9Entry]
      { files := [("/out/B/report.pdf", "old")], dirs := ["/out/B"] }
      [("f1", c9Detail)] ["B"] "s").Files ("f1") = some c9Detail :=
  c9_existing_record_frame ("/out") (fun _ => "new") [c9Entry]
    { files := [("/out/B/report.pdf", "old")], dirs := ["/out/B"] }
    [("f1", c9Detail)] ["B"] "s" ("f1") c9Detail (by decide) (by decide)

/-- C5: download condition of the apply stage.  For an item of the collected
set, the full content is fetched and written over the destination file when
the destination file is absent from disk or the stamp of the record read by
the check differs from the item's current remote stamp; when the file is
present and the stamps agree, no download happens and the files on disk are
untouched. -/
theorem c5_download_iff (dataPath : String) (content : String → String) (n : Nat)
    (acc : ApplyAcc) (e : Entry) :
    (FS.statFile acc.fs (downloadPathFor dataPath e) = false ∨
        (detailFor acc.outFiles dataPath e).UpdatedAt ≠ e.item.lastModifiedAt →
      (processItem dataPath content n acc e).downloads = acc.downloads ++ [e.item.id] ∧
      lookupA (processItem dataPath content n acc e).fs.files (downloadPathFor dataPath e)
        = some (content e.item.id)) ∧
    (FS.statFile acc.fs (downloadPathFor dataPath e) = true ∧
        (detailFor acc.outFiles dataPath e).UpdatedAt = e.item.lastModifiedAt →
      (processItem dataPath content n acc e).downloads = acc.downloads ∧
      (processItem dataPath content n acc e).fs.files = acc.fs.files) := by
  constructor
  · intro hcond
    simp only [processItem]
    rw [statFile_after_mkdir acc (downloadPathFor dataPath e) (downloadPathFor dataPath e)]
    rw [if_pos hcond, if_pos hcond]
    refine ⟨rfl, ?_⟩
    simp [FS.writeFile, lookupA_insertA]
  · rintro ⟨hstat, heq⟩
    have hneg : ¬(FS.statFile acc.fs (downloadPathFor dataPath e) = false ∨
        (detailFor acc.outFiles dataPath e).UpdatedAt ≠ e.item.lastModifiedAt) := by
      rintro (h | h)
      · rw [hstat] at h
        cases h
      · exact h heq
    simp only [processItem]
    rw [statFile_after_mkdir acc (downloadPathFor dataPath e) (downloadPathFor dataPath e)]
    rw [if_neg hneg, if_neg hneg]
    refine ⟨rfl, ?_⟩
    by_cases hm : goPathDir (downloadPathFor dataPath e) ∈ acc.fs.dirs <;>
      simp [hm, FS.mkdirAll]

/-- C5 witness: the theorem applied at the concrete stale-stamp state, where
the stamps differ while the file is on disk, so the content is fetched and
overwritten. -/
theorem c5_download_iff_witness :
    (processItem ("/out") (fun _ => "new") 1 c5Acc c5Entry).downloads
      = c5Acc.downloads ++ ["f1"] ∧
    lookupA (processItem ("/out") (fun _ => "new") 1 c5Acc c5Entry).fs.files
      (downloadPathFor ("/out") c5Entry) = some ("new") :=
  (c5_download_iff ("/out") (fun _ => "new") 1 c5Acc c5Entry).1 (by decide)

/- Helper: splitting never yields an empty piece list. -/
theorem splitSep_ne_nil (sep : Char) (l : List Char) : splitSep sep l ≠ [] := by
  cases l with
  | nil => simp [splitSep]
  | cons c cs =>
    simp only [splitSep]
    by_cases h : c = sep
    · simp [h]
    · simp only [if_neg h]
      cases hs : splitSep sep cs <;> simp

/- Helper: splitting distributes over an append at a separator. -/
theorem splitSep_append (sep : Char) (a b : List Char) :
    splitSep sep (a ++ sep :: b) = splitSep sep a ++ splitSep sep b := by
  induction a with
  | nil => simp [splitSep]
  | cons c cs ih =>
    by_cases h : c = sep
    · simp [splitSep, h, ih]
    · simp only [List.cons_append, splitSep, if_neg h, List.append_eq]
      rw [ih]
      cases hs : splitSep sep cs with
      | nil => exact absurd hs (splitSep_ne_nil sep cs)
      | cons x xs => simp

/- Helper: an empty segment is ignored by Clean's lexical processing. -/
theorem foldl_cleanPush_skip (r : Bool) (init : List (List Char)) (X Y : List (List Char)) :
    (X ++ [] :: Y).foldl (cleanPush r) init = (X ++ Y).foldl (cleanPush r) init := by
  rw [List.foldl_append, List.foldl_append]
  rfl

/- Helper: Clean collapses a duplicated slash inside a nonempty path. -/
theorem goCleanData_extra_slash (c : Char) (d r : List Char) :
    goCleanData (c :: (d ++ '/' :: '/' :: r)) = goCleanData (c :: (d ++ '/' :: r)) := by
  simp only [goCleanData]
  have h1 : splitSep '/' (c :: (d ++ '/' :: '/' :: r))
      = splitSep '/' (c :: d) ++ [] :: splitSep '/' r := by
    have ha := splitSep_append '/' (c :: d) ('/' :: r)
    simp only [List.cons_append] at ha
    have hsr : splitSep '/' ('/' :: r) = [] :: splitSep '/' r := by simp [splitSep]
    rw [ha, hsr]
  have h2 : splitSep '/' (c :: (d ++ '/' :: r))
      = splitSep '/' (c :: d) ++ splitSep '/' r := by
    have hb := splitSep_append '/' (c :: d) r
    simpa [List.cons_append] using hb
  rw [h1, h2, foldl_cleanPush_skip]

/- Helper: path.Join with a nonempty first element always joins and Cleans. -/
theorem goPathJoin2_of_ne (a b : String) (ha : ¬(a = "")) :
    goPathJoin2 a b = goClean (String.mk (a.data ++ '/' :: b.data)) := by
  unfold goPathJoin2
  rw [if_neg (fun h => ha h.1), if_neg ha]

/- Helper: Clean on an explicitly built string. -/
theorem goClean_mk (l : List Char) : goClean (String.mk l) = String.mk (goCleanData l) := rfl

/-- C6: counterexample to the claimed value of the destination-relative path.
For the entry point with full remote path /A/B (root /A) and the leaf with
full remote path /A/B/C/d.txt, strings.TrimPrefix keeps the leading
separator: the computed relative path is /B/C/d.txt, which differs from the
claimed B/C/d.txt. -/
theorem c6_relative_path_counterexample :
    getFullName c6Entry = "/A/B" ∧
    goPathDir (getFullName c6Entry) = "/A" ∧
    getFullName c6Leaf = "/A/B/C/d.txt" ∧
    trimPrefixStr (getFullName c6Leaf) (goPathDir (getFullName c6Entry)) = "/B/C/d.txt" ∧
    trimPrefixStr (getFullName c6Leaf) (goPathDir (getFullName c6Entry)) ≠ "B/C/d.txt" := by
  decide

/-- C6 amended: for entry point full path /A/B with root prefix /A and
descendant leaf full path /A/B/C/d.txt, the computed destination-relative
path is /B/C/d.txt - TrimPrefix keeps the leading separator - and joining it
to any non-empty configured output directory with path.Join gives the same
destination file path as joining B/C/d.txt would, since path.Join collapses
the duplicate separator. -/
theorem c6_path_derivation_amended :
    getFullName c6Entry = "/A/B" ∧
    goPathDir (getFullName c6Entry) = "/A" ∧
    getFullName c6Leaf = "/A/B/C/d.txt" ∧
    trimPrefixStr (getFullName c6Leaf) (goPathDir (getFullName c6Entry)) = "/B/C/d.txt" ∧
    (∀ dir : String, ¬(dir = "") →
      goPathJoin2 dir ("/B/C/d.txt") = goPathJoin2 dir ("B/C/d.txt")) := by
  refine ⟨by decide, by decide, by decide, by decide, ?_⟩
  intro dir hdir
  obtain ⟨c, d', hd⟩ : ∃ c d', dir.data = c :: d' := by
    cases hdata : dir.data with
    | nil =>
      exfalso
      apply hdir
      have h1 : dir = String.mk dir.data := rfl
      rw [h1, hdata]
    | cons c d' => exact ⟨c, d', rfl⟩
  rw [goPathJoin2_of_ne _ _ hdir, goPathJoin2_of_ne _ _ hdir]
  have hb1 : ("/B/C/d.txt" : String).data = '/' :: ("B/C/d.txt" : String).data := rfl
  rw [hb1, goClean_mk, goClean_mk]
  congr 1
  rw [hd]
  exact goCleanData_extra_slash c d' (("B/C/d.txt" : String).data)

/-- C6 amended witness: the join identity of the amended claim applied at the
concrete output directory /out. -/
theorem c6_path_derivation_amended_witness :
    goPathJoin2 ("/out") ("/B/C/d.txt") = goPathJoin2 ("/out") ("B/C/d.txt") :=
  (c6_path_derivation_amended).2.2.2.2 ("/out") (by decide)
